import Mathlib

/-!
Verification of the `ttt` terminal typing test (src/main.cpp) against its
natural-language specification.

Modelling conventions:
* C++ `std::string` values are byte sequences; they are embedded as `List Nat`
  (each element a byte value `< 256`).  `str[pos]` is `byteAt`, `str.substr(a, b - a)`
  is `slice`.
* Writes to `std::cout` are modelled as appending bytes to an explicit output
  stream (`List Nat`).
* Global configuration (`g_tab_width`) and external library calls that are pure
  functions (`nfd` from unilib) are passed as explicit parameters.
* Fallible arithmetic (IEEE division by zero) is modelled with `Option`.
-/

namespace Ttt

/-- A byte string, as C++ `std::string` is a byte sequence. -/
abbrev ByteStr := List Nat

/-- Reading `str[pos]` of a C++ string; positions at `size()` read as `'\0'` (C++11
`operator[]` semantics), which matches every in-bounds use in the source. -/
def byteAt (s : ByteStr) (pos : Nat) : Nat := s.getD pos 0

/-- The C++ `str.substr(a, b - a)`: like `substr`, the count clamps at the end. -/
def slice (s : ByteStr) (a b : Nat) : ByteStr := (s.drop a).take (b - a)

/-- C `isspace` in the C/POSIX locale (the only bytes it accepts are the six
ASCII whitespace characters). -/
def isspace_b (b : Nat) : Bool := b = 32 || (9 ≤ b && b ≤ 13)

/-- main.cpp `utf8_char_length`: number of bytes in a UTF-8 character based on
its first byte; invalid leading bytes are treated as single bytes. -/
def utf8_char_length (first_byte : Nat) : Nat :=
  if first_byte &&& 0x80 = 0 then 1
  else if first_byte &&& 0xE0 = 0xC0 then 2
  else if first_byte &&& 0xF0 = 0xE0 then 3
  else if first_byte &&& 0xF8 = 0xF0 then 4
  else 1

/-- main.cpp `is_utf8_continuation`. -/
def is_utf8_continuation (byte : Nat) : Bool := byte &&& 0xC0 = 0x80

lemma utf8_char_length_ge_one (b : Nat) : 1 ≤ utf8_char_length b := by
  unfold utf8_char_length
  split <;> [skip; split] <;> [omega; omega; skip]
  split <;> [omega; split <;> omega]

lemma utf8_char_length_le_four (b : Nat) : utf8_char_length b ≤ 4 := by
  unfold utf8_char_length
  split <;> [skip; split] <;> [omega; omega; skip]
  split <;> [omega; split <;> omega]

/-- The codepoint decoding performed by `mbtowc` in a UTF-8 locale on the
zero-padded buffer `is_combining_char`/`get_char_width` build: reads
`utf8_char_length` bytes and combines them; a malformed sequence (missing
continuation byte, or a lone non-ASCII single byte) makes `mbtowc` fail, which
we model as `none`. -/
def utf8_decode (s : ByteStr) (pos : Nat) : Option Nat :=
  let b0 := byteAt s pos
  let len := utf8_char_length b0
  if len = 2 then
    let b1 := byteAt s (pos + 1)
    if is_utf8_continuation b1 then some ((b0 - 0xC0) * 0x40 + (b1 - 0x80)) else none
  else if len = 3 then
    let b1 := byteAt s (pos + 1)
    let b2 := byteAt s (pos + 2)
    if is_utf8_continuation b1 && is_utf8_continuation b2 then
      some (((b0 - 0xE0) * 0x40 + (b1 - 0x80)) * 0x40 + (b2 - 0x80))
    else none
  else if len = 4 then
    let b1 := byteAt s (pos + 1)
    let b2 := byteAt s (pos + 2)
    let b3 := byteAt s (pos + 3)
    if is_utf8_continuation b1 && is_utf8_continuation b2 && is_utf8_continuation b3 then
      some ((((b0 - 0xF0) * 0x40 + (b1 - 0x80)) * 0x40 + (b2 - 0x80)) * 0x40 + (b3 - 0x80))
    else none
  else if b0 &&& 0x80 = 0 then some b0
  else none

/-- The Unicode combining-mark ranges listed in main.cpp `is_combining_char`. -/
def in_combining_ranges (wc : Nat) : Bool :=
  (0x0300 ≤ wc && wc ≤ 0x036F) ||
  (0x1AB0 ≤ wc && wc ≤ 0x1AFF) ||
  (0x1DC0 ≤ wc && wc ≤ 0x1DFF) ||
  (0x20D0 ≤ wc && wc ≤ 0x20FF) ||
  (0xFE20 ≤ wc && wc ≤ 0xFE2F)

/-- main.cpp `is_combining_char`: decode the codepoint at `pos` and test the
combining-mark ranges; out-of-range positions and decode failures are not
combining marks. -/
def is_combining_char (s : ByteStr) (pos : Nat) : Bool :=
  if pos < s.length then
    match utf8_decode s pos with
    | some wc => in_combining_ranges wc
    | none => false
  else false

/-- The `while (pos < str.length() && is_combining_char(str, pos))` loop inside
`find_grapheme_cluster_end`. -/
def skip_combining (s : ByteStr) (pos : Nat) : Nat :=
  if pos < s.length ∧ is_combining_char s pos then
    skip_combining s (pos + utf8_char_length (byteAt s pos))
  else pos
termination_by s.length - pos
decreasing_by
  have := utf8_char_length_ge_one (byteAt s pos)
  omega

lemma le_skip_combining (s : ByteStr) (pos : Nat) : pos ≤ skip_combining s pos := by
  induction pos using skip_combining.induct s with
  | case1 pos h ih =>
    rw [skip_combining, if_pos h]
    have := utf8_char_length_ge_one (byteAt s pos)
    omega
  | case2 pos h =>
    rw [skip_combining, if_neg h]

lemma skip_combining_not_combining (s : ByteStr) (pos : Nat) :
    is_combining_char s (skip_combining s pos) = false := by
  induction pos using skip_combining.induct s with
  | case1 pos h ih =>
    rw [skip_combining, if_pos h]
    exact ih
  | case2 pos h =>
    rw [skip_combining, if_neg h]
    by_cases hp : pos < s.length
    · have : ¬ is_combining_char s pos = true := fun hc => h ⟨hp, hc⟩
      simpa using this
    · simp [is_combining_char, hp]

/-- main.cpp `find_grapheme_cluster_end`: advance past the codepoint at
`start`, consume trailing combining marks, then recurse through recognized
emoji / ZWJ continuations. -/
def find_grapheme_cluster_end (s : ByteStr) (start : Nat) : Nat :=
  if h : start < s.length then
    if hp : skip_combining s (start + utf8_char_length (byteAt s start)) < s.length ∧
        ((byteAt s (skip_combining s (start + utf8_char_length (byteAt s start))) = 0xF0 ∧
          skip_combining s (start + utf8_char_length (byteAt s start)) + 3 < s.length) ∨
         (byteAt s (skip_combining s (start + utf8_char_length (byteAt s start))) = 0xE2 ∧
          skip_combining s (start + utf8_char_length (byteAt s start)) + 2 < s.length ∧
          byteAt s (skip_combining s (start + utf8_char_length (byteAt s start)) + 1) = 0x80 ∧
          byteAt s (skip_combining s (start + utf8_char_length (byteAt s start)) + 2) = 0x8D)) then
      find_grapheme_cluster_end s (skip_combining s (start + utf8_char_length (byteAt s start)))
    else skip_combining s (start + utf8_char_length (byteAt s start))
  else start
termination_by s.length - start
decreasing_by
  have h1 := le_skip_combining s (start + utf8_char_length (byteAt s start))
  have h2 := utf8_char_length_ge_one (byteAt s start)
  omega

lemma le_find_grapheme_cluster_end (s : ByteStr) (start : Nat) :
    start ≤ find_grapheme_cluster_end s start := by
  induction start using find_grapheme_cluster_end.induct s with
  | case1 start h hp ih =>
    rw [find_grapheme_cluster_end, dif_pos h, dif_pos hp]
    have h1 := le_skip_combining s (start + utf8_char_length (byteAt s start))
    have h2 := utf8_char_length_ge_one (byteAt s start)
    omega
  | case2 start h hp =>
    rw [find_grapheme_cluster_end, dif_pos h, dif_neg hp]
    have h1 := le_skip_combining s (start + utf8_char_length (byteAt s start))
    have h2 := utf8_char_length_ge_one (byteAt s start)
    omega
  | case3 start h =>
    rw [find_grapheme_cluster_end, dif_neg h]

lemma lt_find_grapheme_cluster_end (s : ByteStr) (start : Nat)
    (h : start < s.length) : start < find_grapheme_cluster_end s start := by
  rw [find_grapheme_cluster_end, dif_pos h]
  have h1 := le_skip_combining s (start + utf8_char_length (byteAt s start))
  have h2 := utf8_char_length_ge_one (byteAt s start)
  split
  · have h3 := le_find_grapheme_cluster_end s
      (skip_combining s (start + utf8_char_length (byteAt s start)))
    omega
  · omega

lemma find_grapheme_cluster_end_not_combining (s : ByteStr) (start : Nat) :
    is_combining_char s (find_grapheme_cluster_end s start) = false := by
  induction start using find_grapheme_cluster_end.induct s with
  | case1 start h hp ih =>
    rw [find_grapheme_cluster_end, dif_pos h, dif_pos hp]
    exact ih
  | case2 start h hp =>
    rw [find_grapheme_cluster_end, dif_pos h, dif_neg hp]
    exact skip_combining_not_combining s (start + utf8_char_length (byteAt s start))
  | case3 start h =>
    rw [find_grapheme_cluster_end, dif_neg h]
    simp [is_combining_char, h]

/-- Modelled from the spec: the repository vendors the `wcwidth` library
(`#include <wcwidth/wcwidth.h>`), whose table is not under src/.  §4.1(e):
display width comes "via a standard East-Asian-width table, negative/unknown →
fallback width 1".  We model the standard `mk_wcwidth` shape: NUL → 0, other
control characters → -1, combining marks → 0, wide East-Asian blocks → 2,
everything else → 1. -/
def mk_wcwidth (wc : Nat) : Int :=
  if wc = 0 then 0
  else if wc < 32 ∨ (0x7F ≤ wc ∧ wc < 0xA0) then -1
  else if in_combining_ranges wc then 0
  else if (0x1100 ≤ wc ∧ wc ≤ 0x115F) ∨ (0x2E80 ≤ wc ∧ wc ≤ 0x303E) ∨
      (0x3041 ≤ wc ∧ wc ≤ 0x33FF) ∨ (0x3400 ≤ wc ∧ wc ≤ 0x4DBF) ∨
      (0x4E00 ≤ wc ∧ wc ≤ 0x9FFF) ∨ (0xA000 ≤ wc ∧ wc ≤ 0xA4CF) ∨
      (0xAC00 ≤ wc ∧ wc ≤ 0xD7A3) ∨ (0xF900 ≤ wc ∧ wc ≤ 0xFAFF) ∨
      (0xFE30 ≤ wc ∧ wc ≤ 0xFE6F) ∨ (0xFF00 ≤ wc ∧ wc ≤ 0xFF60) ∨
      (0xFFE0 ≤ wc ∧ wc ≤ 0xFFE6) ∨ (0x20000 ≤ wc ∧ wc ≤ 0x2FFFD) ∨
      (0x30000 ≤ wc ∧ wc ≤ 0x3FFFD) then 2
  else 1

/-- main.cpp `get_char_width`: display width of the character at `pos`.
`tab_width` stands for the global `g_tab_width`.  A failed `mbtowc` decode
leaves `wc` unset in the C++ (undefined); we model that corner as the
fallback width 1, matching the function's `width >= 0 ? width : 1` fallback. -/
def get_char_width (tab_width : Nat) (s : ByteStr) (pos : Nat) : Nat :=
  if pos ≥ s.length then 0
  else if is_utf8_continuation (byteAt s pos) then 1
  else if byteAt s pos = 9 then tab_width
  else
    match utf8_decode s pos with
    | some wc =>
      if wc ≥ 0x1F300 then 2
      else if mk_wcwidth wc ≥ 0 then (mk_wcwidth wc).toNat else 1
    | none => 1

/-- main.cpp `next_char_pos`. -/
def next_char_pos (s : ByteStr) (pos : Nat) : Nat :=
  if pos ≥ s.length then s.length else pos + utf8_char_length (byteAt s pos)

/-- The `while (prev > 0 && (str[prev] & 0xC0) == 0x80) prev--;` loop of
main.cpp `prev_char_pos`. -/
def pcp_loop (s : ByteStr) (prev : Nat) : Nat :=
  if 0 < prev ∧ is_utf8_continuation (byteAt s prev) then pcp_loop s (prev - 1)
  else prev

/-- main.cpp `prev_char_pos`: step back over continuation bytes to the start
of the previous UTF-8 character (`pos <= 0` guards the empty case; `pos` is a
`size_t`, so that means `pos = 0`). -/
def prev_char_pos (s : ByteStr) (pos : Nat) : Nat :=
  if pos = 0 then 0 else pcp_loop s (pos - 1)

lemma pcp_loop_le (s : ByteStr) (prev : Nat) : pcp_loop s prev ≤ prev := by
  induction prev using pcp_loop.induct s with
  | case1 prev h ih =>
    rw [pcp_loop, if_pos h]
    omega
  | case2 prev h =>
    rw [pcp_loop, if_neg h]

lemma pcp_loop_cont_above (s : ByteStr) (prev : Nat) :
    ∀ q, pcp_loop s prev < q → q ≤ prev → is_utf8_continuation (byteAt s q) = true := by
  induction prev using pcp_loop.induct s with
  | case1 prev h ih =>
    rw [pcp_loop, if_pos h]
    intro q hq1 hq2
    rcases Nat.lt_or_ge q prev with hlt | hge
    · exact ih q hq1 (by omega)
    · have : q = prev := by omega
      subst this
      exact h.2
  | case2 prev h =>
    rw [pcp_loop, if_neg h]
    intro q hq1 hq2
    omega

lemma pcp_loop_stop (s : ByteStr) (prev : Nat) :
    pcp_loop s prev = 0 ∨ is_utf8_continuation (byteAt s (pcp_loop s prev)) = false := by
  induction prev using pcp_loop.induct s with
  | case1 prev h ih =>
    rw [pcp_loop, if_pos h]
    exact ih
  | case2 prev h =>
    rw [pcp_loop, if_neg h]
    by_cases h0 : prev = 0
    · exact Or.inl h0
    · right
      have : ¬ is_utf8_continuation (byteAt s prev) = true := fun hc => h ⟨by omega, hc⟩
      simpa using this

/-- The line-splitting loop of main.cpp (lines 731-740): repeatedly cut at a
newline, always pushing the final remainder (so a trailing newline yields a
final empty line) — exactly `List.splitOn` on the newline byte. -/
def split_lines (t : ByteStr) : List ByteStr := t.splitOn 10

/-- main.cpp line 700: `target.erase(find_if(target.rbegin(), target.rend(),
[](unsigned char ch) { return !isspace(ch); }).base(), target.end())` —
remove all trailing whitespace bytes. -/
def strip_trailing_whitespace (s : ByteStr) : ByteStr :=
  (s.reverse.dropWhile isspace_b).reverse

/-- Tokenization performed by `istream_iterator<string>` on an
`istringstream`: the maximal non-whitespace runs of the paragraph, i.e. split
at every whitespace byte and keep the non-empty pieces. -/
def extract_words (p : ByteStr) : List ByteStr :=
  (p.splitOnP isspace_b).filter (fun w => !w.isEmpty)

/-- The display-width summation over one grapheme cluster inside `wrap_text`
(`for (pos = word_start; pos < cluster_end; pos += utf8_char_length(word[pos]))`). -/
def cluster_width (tab_width : Nat) (word : ByteStr) (pos ce : Nat) : Nat :=
  if pos < ce then
    get_char_width tab_width word pos +
      cluster_width tab_width word (pos + utf8_char_length (byteAt word pos)) ce
  else 0
termination_by ce - pos
decreasing_by
  have := utf8_char_length_ge_one (byteAt word pos)
  omega

/-- The `while (word_start < word.size())` loop of `wrap_text` that breaks a
word longer than the wrap width into grapheme-cluster-aligned chunks, plus the
trailing `if (chunk_start < word_start)` emission that follows it.  The three
state variables are `word_start`, `current_width` (`cw`) and `chunk_start`
(`cs`); emitted bytes are returned in order. -/
def blw_loop (tab_width w : Nat) (word : ByteStr) (word_start cw cs : Nat) : ByteStr :=
  if h : word_start < word.length then
    if cw + cluster_width tab_width word word_start (find_grapheme_cluster_end word word_start) > w then
      if cs < word_start then
        (if 0 < cs then [10] else []) ++ slice word cs word_start ++
          blw_loop tab_width w word (find_grapheme_cluster_end word word_start)
            (cluster_width tab_width word word_start (find_grapheme_cluster_end word word_start))
            word_start
      else if cluster_width tab_width word word_start (find_grapheme_cluster_end word word_start) > w then
        (if 0 < word_start then [10] else []) ++
          slice word word_start (find_grapheme_cluster_end word word_start) ++
          blw_loop tab_width w word (find_grapheme_cluster_end word word_start) 0
            (find_grapheme_cluster_end word word_start)
      else
        blw_loop tab_width w word (find_grapheme_cluster_end word word_start)
          (cw + cluster_width tab_width word word_start (find_grapheme_cluster_end word word_start))
          cs
    else
      blw_loop tab_width w word (find_grapheme_cluster_end word word_start)
        (cw + cluster_width tab_width word word_start (find_grapheme_cluster_end word word_start))
        cs
  else if cs < word_start then (if 0 < cs then [10] else []) ++ slice word cs word_start
  else []
termination_by word.length - word_start
decreasing_by
  all_goals
    have := lt_find_grapheme_cluster_end word word_start h
    omega

/-- The long-word branch of `wrap_text`'s word loop (starting at
`size_t word_start = 0; ... size_t chunk_start = word_start;`). -/
def break_long_word (tab_width w : Nat) (word : ByteStr) : ByteStr :=
  blw_loop tab_width w word 0 0 0

/-- The `for (const auto& word : words)` loop of `wrap_text`, threading the
`line` accumulator; the final `if (!line.empty()) wrapped += line;` is the
base case.  Emitted bytes are returned in order. -/
def wrap_words (tab_width w : Nat) : List ByteStr → ByteStr → ByteStr
  | [], line => if line.isEmpty then [] else line
  | word :: rest, line =>
    if word.length > w then
      (if line.isEmpty then [] else line ++ [10]) ++ break_long_word tab_width w word ++
        wrap_words tab_width w rest []
    else if line.isEmpty then wrap_words tab_width w rest word
    else if line.length + 1 + word.length ≤ w then
      wrap_words tab_width w rest (line ++ [32] ++ word)
    else line ++ [10] ++ wrap_words tab_width w rest word

/-- One iteration body of `wrap_text`'s paragraph loop: tokenize the paragraph
and run the word loop with an empty `line`. -/
def wrap_one_paragraph (tab_width w : Nat) (para : ByteStr) : ByteStr :=
  wrap_words tab_width w (extract_words para) []

/-- The `while (start < text.size())` paragraph loop of `wrap_text`, applied
to the newline-separated paragraphs of the text: each paragraph that was
followed by a newline in the original text (i.e. every one but the last piece
of the newline split) is wrapped and followed by a re-appended newline; the
last piece gets none.  (When the text ends in a newline the C++ loop stops
right after emitting that newline; the split's trailing empty piece wraps to
nothing, so the results agree.) -/
def wrap_paragraphs (tab_width w : Nat) : List ByteStr → ByteStr
  | [] => []
  | [p] => wrap_one_paragraph tab_width w p
  | p :: rest =>
    wrap_one_paragraph tab_width w p ++ [10] ++ wrap_paragraphs tab_width w rest

/-- main.cpp `wrap_text`.  The C++ takes `int wrap_width` and returns the text
unchanged when `wrap_width <= 0`; `tab_width` stands for the global
`g_tab_width` read through `get_char_width`. -/
def wrap_text (tab_width : Nat) (text : ByteStr) (wrap_width : Int) : ByteStr :=
  if wrap_width ≤ 0 then text
  else wrap_paragraphs tab_width wrap_width.toNat (text.splitOn 10)

lemma takeWhile_length_stop (p : Nat → Bool) :
    ∀ (l : List Nat), (l.takeWhile p).length < l.length →
      p (byteAt l (l.takeWhile p).length) = false := by
  intro l
  induction l with
  | nil => intro h; simp at h
  | cons a l ih =>
    intro h
    by_cases hp : p a = true
    · rw [List.takeWhile_cons_of_pos hp] at h ⊢
      simp only [List.length_cons] at h ⊢
      exact ih (by omega)
    · rw [List.takeWhile_cons_of_neg hp] at h ⊢
      simpa [byteAt] using hp

lemma takeWhile_length_pos (p : Nat → Bool) (l : List Nat)
    (h0 : 0 < l.length) (hp : p (byteAt l 0) = true) :
    1 ≤ (l.takeWhile p).length := by
  cases l with
  | nil => simp at h0
  | cons a l =>
    simp only [byteAt, List.getD_cons_zero] at hp
    rw [List.takeWhile_cons_of_pos hp]
    simp

lemma byteAt_drop (t : ByteStr) (i k : Nat) : byteAt (t.drop i) k = byteAt t (i + k) := by
  unfold byteAt
  rw [List.getD_eq_getElem?_getD, List.getD_eq_getElem?_getD, List.getElem?_drop]

/-- The `while (i < target.size() && isspace(target[i])) i++;` scan in
`find_misspelled_words`: advance past the whitespace run starting at `i`. -/
def skip_ws (t : ByteStr) (i : Nat) : Nat :=
  i + ((t.drop i).takeWhile isspace_b).length

/-- The `while (i < target.size() && !isspace(target[i])) i++;` scan in
`find_misspelled_words`: advance past the non-whitespace run starting at `i`. -/
def skip_non_ws (t : ByteStr) (i : Nat) : Nat :=
  i + ((t.drop i).takeWhile (fun b => !isspace_b b)).length

lemma le_skip_ws (t : ByteStr) (i : Nat) : i ≤ skip_ws t i := Nat.le_add_right _ _

lemma le_skip_non_ws (t : ByteStr) (i : Nat) : i ≤ skip_non_ws t i := Nat.le_add_right _ _

lemma skip_ws_stop (t : ByteStr) (i : Nat) (h : skip_ws t i < t.length) :
    isspace_b (byteAt t (skip_ws t i)) = false := by
  unfold skip_ws at h ⊢
  have hlt : ((t.drop i).takeWhile isspace_b).length < (t.drop i).length := by
    rw [List.length_drop]
    omega
  have := takeWhile_length_stop isspace_b (t.drop i) hlt
  rwa [byteAt_drop] at this

/-- The word scanner strictly advances: from any in-range position, the end of
the scanned (whitespace, word) pair lies strictly beyond it. -/
lemma scan_progress (t : ByteStr) (i : Nat) (h : i < t.length) :
    i < skip_non_ws t (skip_ws t i) := by
  have h1 := le_skip_ws t i
  by_cases h2 : skip_ws t i < t.length
  · have h3 := skip_ws_stop t i h2
    have h4 : 0 < (t.drop (skip_ws t i)).length := by
      rw [List.length_drop]
      omega
    have h5 : (fun b => !isspace_b b) (byteAt (t.drop (skip_ws t i)) 0) = true := by
      rw [byteAt_drop]
      simpa using h3
    have := takeWhile_length_pos (fun b => !isspace_b b) (t.drop (skip_ws t i)) h4 h5
    unfold skip_non_ws
    omega
  · have := le_skip_non_ws t (skip_ws t i)
    omega

/-- The inner `for (size_t j = start; j < i; j++)` mismatch check of
`find_misspelled_words`: true iff some position of the word lies beyond the
user input or disagrees with it. -/
def word_error (t u : ByteStr) (s e : Nat) : Bool :=
  (List.range' s (e - s)).any (fun j => u.length ≤ j || byteAt u j ≠ byteAt t j)

/-- The `while (i < target.size())` loop of `find_misspelled_words`.  The C++
accumulates into a `std::set<string>`; we model the set as a duplicate-free
list built with `List.insert`, so membership coincides with `std::set`
membership (the sort order of the set is irrelevant to the claims). -/
def fmw_loop (t u : ByteStr) (i : Nat) : List ByteStr :=
  if h : i < t.length then
    if skip_ws t i < skip_non_ws t (skip_ws t i) ∧
        word_error t u (skip_ws t i) (skip_non_ws t (skip_ws t i)) then
      List.insert (slice t (skip_ws t i) (skip_non_ws t (skip_ws t i)))
        (fmw_loop t u (skip_non_ws t (skip_ws t i)))
    else fmw_loop t u (skip_non_ws t (skip_ws t i))
  else []
termination_by t.length - i
decreasing_by
  all_goals
    have := scan_progress t i h
    omega

/-- main.cpp `find_misspelled_words`. -/
def find_misspelled_words (target user_input : ByteStr) : List ByteStr :=
  fmw_loop target user_input 0

/-- The (start, end) spans of the whitespace-delimited words of `t`, produced
by the same scanning loop as `find_misspelled_words`; used to state which
words that function reports. -/
def word_spans (t : ByteStr) (i : Nat) : List (Nat × Nat) :=
  if h : i < t.length then
    if skip_ws t i < skip_non_ws t (skip_ws t i) then
      (skip_ws t i, skip_non_ws t (skip_ws t i)) :: word_spans t (skip_non_ws t (skip_ws t i))
    else word_spans t (skip_non_ws t (skip_ws t i))
  else []
termination_by t.length - i
decreasing_by
  all_goals
    have := scan_progress t i h
    omega

/-- main.cpp lines 850-855: count of byte positions where target and final
input agree. -/
def n_correct_chars (target user_input : ByteStr) : Nat :=
  ((List.range target.length).filter
    (fun i => byteAt target i = byteAt user_input i)).length

/-- main.cpp line 857: `accuracy = n_correct_chars / target.size() * 100.0`.
The C++ computes in `double`; the inputs here are exact small integers, so the
rational value coincides with the IEEE one for the cases proved below. -/
def accuracy (target user_input : ByteStr) : ℚ :=
  ((n_correct_chars target user_input : ℚ) / (target.length : ℚ)) * 100

/-- main.cpp lines 846-848: `seconds`, `minutes = seconds / 60.0`, and
`wpm = (target.size() / 5.0) / minutes`.  The source divides with no guard;
`minutes = 0` makes the IEEE double division produce ±infinity (or NaN for an
empty target), which a rational model cannot represent — that outcome is
modelled as `none`.  A `some` result is the finite WPM value. -/
def compute_wpm (target_size : Nat) (seconds : ℚ) : Option ℚ :=
  if seconds / 60 = 0 then none
  else some (((target_size : ℚ) / 5) / (seconds / 60))

/-! ### Render engine (`draw_state`) -/

/-- Bytes of `"\r\033[2K"`. -/
def ANSI_CLEAR_LINE : ByteStr := [13, 27, 91, 50, 75]

/-- Bytes of `"\033[38;5;243m"`. -/
def ANSI_GRAY : ByteStr := [27, 91, 51, 56, 59, 53, 59, 50, 52, 51, 109]

/-- Bytes of `"\033[0m"`; `ANSI_CORRECT` is the same string in the source. -/
def ANSI_RESET : ByteStr := [27, 91, 48, 109]

/-- Bytes of `"\033[38;5;9m"`. -/
def ANSI_INCORRECT : ByteStr := [27, 91, 51, 56, 59, 53, 59, 57, 109]

/-- Bytes of `"\033[41m"`. -/
def ANSI_INCORRECT_WHITESPACE : ByteStr := [27, 91, 52, 49, 109]

/-- main.cpp `display_char`: the bytes used to display the character starting
at `pos` (leading tabs render as four spaces; continuation bytes and
out-of-range positions render as nothing). -/
def display_char (s : ByteStr) (pos : Nat) (leading : Bool) : ByteStr :=
  if pos ≥ s.length then []
  else if leading ∧ byteAt s pos = 9 then [32, 32, 32, 32]
  else if is_utf8_continuation (byteAt s pos) then []
  else slice s pos (pos + utf8_char_length (byteAt s pos))

/-- The leading run of spaces and tabs of a line (the `indent` computation of
`draw_state`, and the `prefix` loop of the newline-substitution branch of
`main`). -/
def leading_whitespace (l : ByteStr) : ByteStr :=
  l.takeWhile (fun b => b = 32 || b = 9)

/-- The `for (int j = line_start; j < line_end;)` character loop of
`draw_state` for one target line: `offset` is `offsets[i]`, `indent` the
line's leading-whitespace count, `ui` the (already normalized) user input.
Bytes written to `cout` are returned in order. -/
def draw_line_loop (ui line : ByteStr) (offset indent j : Nat) : ByteStr :=
  if h : j < offset + line.length then
    (if j < ui.length then
      (if display_char line (j - offset) (decide (j - offset < indent)) ≠ [] then
        (if display_char ui j (decide (j - offset < indent)) =
            display_char line (j - offset) (decide (j - offset < indent)) then
          ANSI_RESET ++ display_char line (j - offset) (decide (j - offset < indent)) ++ ANSI_RESET
        else if isspace_b (byteAt ui j) then
          ANSI_INCORRECT_WHITESPACE ++ display_char ui j (decide (j - offset < indent)) ++ ANSI_RESET
        else
          ANSI_INCORRECT ++ display_char ui j (decide (j - offset < indent)) ++ ANSI_RESET)
      else [])
    else if ¬ is_utf8_continuation (byteAt line (j - offset)) then
      ANSI_GRAY ++ display_char line (j - offset) (decide (j - offset < indent)) ++ ANSI_RESET
    else []) ++
    draw_line_loop ui line offset indent
      (if is_utf8_continuation (byteAt line (j - offset)) then j + 1
       else j + utf8_char_length (byteAt line (j - offset)))
  else []
termination_by offset + line.length - j
decreasing_by
  have := utf8_char_length_ge_one (byteAt line (j - offset))
  split <;> omega

/-- The `for (size_t i = 0; i < target_lines.size(); i++)` loop of
`draw_state`: clear and redraw each line, emitting a newline between lines
(`if (i < target_lines.size() - 1)`). -/
def draw_lines_loop (ui : ByteStr) : List ByteStr → Nat → ByteStr
  | [], _ => []
  | line :: rest, offset =>
    ANSI_CLEAR_LINE ++
      draw_line_loop ui line offset (leading_whitespace line).length offset ++
      (if rest.isEmpty then [] else [10]) ++
      draw_lines_loop ui rest (offset + line.length + 1)

/-- The value `offsets.back() + target_lines.back().size()`: the total expected input
length, i.e. the sum of all line lengths plus one separator between
consecutive lines.  (`main` never calls `draw_state` with an empty line list;
the value 0 for `[]` is an arbitrary total completion of the C++ expression,
which would be undefined there.) -/
def total_expected (target_lines : List ByteStr) : Nat :=
  (target_lines.map (fun l => l.length + 1)).sum - 1

/-- main.cpp `draw_state`, with `cout` modelled as the byte stream `out` that
the call appends to.  `nfdF` stands for unilib's NFD normalization (a pure
external function, passed as a parameter); the source first normalizes the
user input, then walks every target line.  Returns the grown stream and the
total expected input length. -/
def draw_state (nfdF : ByteStr → ByteStr) (target_lines : List ByteStr)
    (user_input : ByteStr) (out : ByteStr) : ByteStr × Nat :=
  (out ++ draw_lines_loop (nfdF user_input) target_lines 0,
    total_expected target_lines)

/-! ### Input state machine (the keystroke classification in `main`) -/

/-- The outcome of one keystroke: cancel the session (ESC) or continue with a
new input buffer. -/
inductive KeyAction where
  | cancel : KeyAction
  | cont : ByteStr → KeyAction
deriving DecidableEq, Repr

/-- The newline count of the input buffer (the `current_line` computation in
the newline-substitution branch of `main`). -/
def count_newlines (s : ByteStr) : Nat := s.countP (fun b => b = 10)

/-- The indentation auto-insertion of `main` (lines 800-821): after appending
the newline, count lines typed so far and, when a corresponding target line
exists, append its leading spaces/tabs. -/
def auto_indent (target_lines : List ByteStr) (input2 : ByteStr) : ByteStr :=
  if count_newlines input2 < target_lines.length then
    input2 ++ leading_whitespace (target_lines.getD (count_newlines input2) [])
  else input2

/-- A trailing `while (!s.empty() && pred (s.back())) s.pop_back();` loop. -/
def drop_trailing (pred : Nat → Bool) (s : ByteStr) : ByteStr :=
  (s.reverse.dropWhile pred).reverse

/-- The keystroke classification of `main`'s event loop (lines 779-828): ESC
cancels; DEL/BS removes back to `prev_char_pos`; Ctrl-W deletes trailing
whitespace then a trailing word; whitespace typed where the target has a
newline becomes a newline plus auto-indentation; any other byte is appended,
whitespace normalized to a single space. -/
def process_keystroke (target : ByteStr) (target_lines : List ByteStr)
    (input : ByteStr) (c : Nat) : KeyAction :=
  if c = 27 then .cancel
  else if c = 127 ∨ c = 8 then
    .cont (if input.isEmpty then input
      else input.take (prev_char_pos input input.length))
  else if c = 23 then
    .cont (drop_trailing (fun b => !isspace_b b) (drop_trailing isspace_b input))
  else if byteAt target input.length = 10 ∧ isspace_b c then
    .cont (auto_indent target_lines (input ++ [10]))
  else .cont (input ++ [if isspace_b c then 32 else c])

/-! ### `main`'s startup sequence -/

/-- Observable startup events of `main` relevant to terminal state: entering
raw mode (the `TerminalSettings term(input_fd)` construction at line 743) and
the initial `draw_state` call. -/
inductive MainEv where
  | enterRawMode : MainEv
  | drawInitial : MainEv
deriving DecidableEq, Repr

/-- The target text right after normalization and wrapping (main.cpp lines
693-697), before trailing whitespace is stripped. -/
def wrapped_target (nfdF : ByteStr → ByteStr) (tab_width wrap_width : Nat)
    (target0 : ByteStr) : ByteStr :=
  if 0 < wrap_width then wrap_text tab_width (nfdF target0) (wrap_width : Int)
  else nfdF target0

/-- Outcome of `main`'s startup: either a thrown fatal error (the
`runtime_error` message) or an interactive session with its prepared target
text and target lines. -/
inductive StartupResult where
  | fatal : String → StartupResult
  | session : ByteStr → List ByteStr → StartupResult
deriving DecidableEq, Repr

/-- The startup sequence of `main` for a stdin-provided target (lines
686-746): the empty-target check comes first and throws `"No text provided"`;
only afterwards are normalization, wrapping, trailing-whitespace stripping and
line splitting performed, and only then is raw terminal mode entered and the
initial state drawn.  Returns the events that occurred and the outcome. -/
def main_startup (nfdF : ByteStr → ByteStr) (tab_width wrap_width : Nat)
    (target0 : ByteStr) : List MainEv × StartupResult :=
  if target0.isEmpty then ([], .fatal "No text provided")
  else
    ([.enterRawMode, .drawInitial],
      .session (strip_trailing_whitespace (wrapped_target nfdF tab_width wrap_width target0))
        (split_lines (strip_trailing_whitespace (wrapped_target nfdF tab_width wrap_width target0))))

/-! ## Supporting lemmas for the claims -/

lemma dropWhile_head?_false (p : Nat → Bool) :
    ∀ (l : List Nat) (b : Nat), (l.dropWhile p).head? = some b → p b = false := by
  intro l
  induction l with
  | nil => intro b h; simp at h
  | cons a l ih =>
    intro b h
    by_cases hp : p a = true
    · rw [List.dropWhile_cons_of_pos hp] at h
      exact ih b h
    · rw [List.dropWhile_cons_of_neg hp] at h
      simp only [List.head?_cons, Option.some.injEq] at h
      subst h
      simpa using hp

/-- What line 700 of main.cpp does to the target: the result never ends in a
whitespace byte, and it differs from its argument only by a removed
all-whitespace suffix. -/
lemma strip_trailing_whitespace_spec (s : ByteStr) :
    (∀ b, (strip_trailing_whitespace s).getLast? = some b → isspace_b b = false) ∧
    ∃ sfx, s = strip_trailing_whitespace s ++ sfx ∧ ∀ b ∈ sfx, isspace_b b = true := by
  constructor
  · intro b h
    unfold strip_trailing_whitespace at h
    rw [List.getLast?_reverse] at h
    exact dropWhile_head?_false isspace_b s.reverse b h
  · refine ⟨(s.reverse.takeWhile isspace_b).reverse, ?_, ?_⟩
    · unfold strip_trailing_whitespace
      rw [← List.reverse_append, List.takeWhile_append_dropWhile, List.reverse_reverse]
    · intro b hb
      rw [List.mem_reverse] at hb
      exact List.mem_takeWhile_imp hb

/-- Membership in the set built by `find_misspelled_words`'s loop: a string is
reported from scan position `i` exactly when it is the content of one of the
word spans at or after `i` whose bytes contain a mismatch against the user
input. -/
lemma fmw_loop_mem_iff (t u : ByteStr) :
    ∀ (i : Nat) (w : ByteStr), w ∈ fmw_loop t u i ↔
      ∃ p ∈ word_spans t i, slice t p.1 p.2 = w ∧ word_error t u p.1 p.2 = true := by
  intro i
  induction i using fmw_loop.induct t u with
  | case1 i h hA ih =>
    intro w
    rw [fmw_loop, dif_pos h, if_pos hA, word_spans, dif_pos h, if_pos hA.1]
    simp only [List.mem_insert_iff, List.mem_cons]
    constructor
    · rintro (rfl | hw)
      · exact ⟨_, Or.inl rfl, rfl, hA.2⟩
      · obtain ⟨p, hp, hs, he⟩ := (ih w).mp hw
        exact ⟨p, Or.inr hp, hs, he⟩
    · rintro ⟨p, (rfl | hp), hs, he⟩
      · exact Or.inl hs.symm
      · exact Or.inr ((ih w).mpr ⟨p, hp, hs, he⟩)
  | case2 i h hA ih =>
    intro w
    rw [fmw_loop, dif_pos h, if_neg hA]
    by_cases hse : skip_ws t i < skip_non_ws t (skip_ws t i)
    · have herr : word_error t u (skip_ws t i) (skip_non_ws t (skip_ws t i)) = false := by
        rcases Bool.eq_false_or_eq_true (word_error t u (skip_ws t i)
          (skip_non_ws t (skip_ws t i))) with ht | hf
        · exact absurd ⟨hse, ht⟩ hA
        · exact hf
      rw [word_spans, dif_pos h, if_pos hse]
      rw [ih w]
      constructor
      · rintro ⟨p, hp, hs, he⟩
        exact ⟨p, List.mem_cons_of_mem _ hp, hs, he⟩
      · rintro ⟨p, hp, hs, he⟩
        rcases List.mem_cons.mp hp with rfl | hp'
        · rw [herr] at he
          cases he
        · exact ⟨p, hp', hs, he⟩
    · rw [word_spans, dif_pos h, if_neg hse]
      exact ih w
  | case3 i h =>
    intro w
    rw [fmw_loop, dif_neg h, word_spans, dif_neg h]
    simp

/-- Concrete evaluation: stepping back from the end of `"e" + U+0301` (bytes
`[101, 204, 129]`, a base letter followed by a two-byte combining acute) stops
at position 1, the start of the combining mark — not at position 0. -/
lemma prev_char_pos_e_acute : prev_char_pos [101, 204, 129] 3 = 1 := by
  rw [prev_char_pos, if_neg (by decide), show (3 : Nat) - 1 = 2 from rfl]
  rw [pcp_loop, if_pos (by decide), show (2 : Nat) - 1 = 1 from rfl]
  rw [pcp_loop, if_neg (by decide)]

/-- Concrete evaluation: `"e" + U+0301` is a single grapheme cluster — the
cluster starting at 0 ends at 3, past the combining mark. -/
lemma cluster_end_e_acute : find_grapheme_cluster_end [101, 204, 129] 0 = 3 := by
  have hsk : skip_combining [101, 204, 129] 1 = 3 := by
    rw [skip_combining, if_pos (by decide)]
    rw [show 1 + utf8_char_length (byteAt [101, 204, 129] 1) = 3 from by decide]
    rw [skip_combining, if_neg (by decide)]
  rw [find_grapheme_cluster_end, dif_pos (by decide)]
  rw [show 0 + utf8_char_length (byteAt [101, 204, 129] 0) = 1 from by decide]
  rw [hsk, dif_neg (by decide)]

/-- Evaluation helper: at a plain ASCII byte whose successor starts no
combining mark and no emoji/ZWJ continuation, a grapheme cluster is exactly
one byte, and its display width is that single character's width. -/
lemma ascii_cluster (tw : Nat) (s : ByteStr) (p : Nat)
    (hlen : p < s.length)
    (hb : byteAt s p &&& 0x80 = 0)
    (hc : is_combining_char s (p + 1) = false)
    (hne : ¬ (p + 1 < s.length ∧
      ((byteAt s (p + 1) = 0xF0 ∧ p + 1 + 3 < s.length) ∨
       (byteAt s (p + 1) = 0xE2 ∧ p + 1 + 2 < s.length ∧
        byteAt s (p + 1 + 1) = 0x80 ∧ byteAt s (p + 1 + 2) = 0x8D)))) :
    find_grapheme_cluster_end s p = p + 1 ∧
    cluster_width tw s p (p + 1) = get_char_width tw s p := by
  have hucl : utf8_char_length (byteAt s p) = 1 := by
    unfold utf8_char_length
    rw [if_pos hb]
  have hsk : skip_combining s (p + 1) = p + 1 := by
    rw [skip_combining, if_neg]
    intro hcon
    simp [hc] at hcon
  constructor
  · rw [find_grapheme_cluster_end, dif_pos hlen, hucl, hsk, dif_neg hne]
  · rw [cluster_width, if_pos (Nat.lt_succ_self p), hucl]
    rw [cluster_width, if_neg (by omega)]
    omega

/-- Concrete evaluation of the long-word break loop: `"abcd"` at wrap width 3
is emitted as the chunks `"abc"` and `"d"` separated by a newline. -/
lemma break_long_word_abcd :
    break_long_word 4 3 [97, 98, 99, 100] = [97, 98, 99, 10, 100] := by
  have c0 := ascii_cluster 4 [97, 98, 99, 100] 0 (by decide) (by decide) (by decide) (by decide)
  have c1 := ascii_cluster 4 [97, 98, 99, 100] 1 (by decide) (by decide) (by decide) (by decide)
  have c2 := ascii_cluster 4 [97, 98, 99, 100] 2 (by decide) (by decide) (by decide) (by decide)
  have c3 := ascii_cluster 4 [97, 98, 99, 100] 3 (by decide) (by decide) (by decide) (by decide)
  unfold break_long_word
  rw [blw_loop, dif_pos (by decide), c0.1, c0.2,
    show get_char_width 4 [97, 98, 99, 100] 0 = 1 from by decide, if_neg (by decide)]
  show blw_loop 4 3 [97, 98, 99, 100] 1 1 0 = [97, 98, 99, 10, 100]
  rw [blw_loop, dif_pos (by decide), c1.1, c1.2,
    show get_char_width 4 [97, 98, 99, 100] 1 = 1 from by decide, if_neg (by decide)]
  show blw_loop 4 3 [97, 98, 99, 100] 2 2 0 = [97, 98, 99, 10, 100]
  rw [blw_loop, dif_pos (by decide), c2.1, c2.2,
    show get_char_width 4 [97, 98, 99, 100] 2 = 1 from by decide, if_neg (by decide)]
  show blw_loop 4 3 [97, 98, 99, 100] 3 3 0 = [97, 98, 99, 10, 100]
  rw [blw_loop, dif_pos (by decide), c3.1, c3.2,
    show get_char_width 4 [97, 98, 99, 100] 3 = 1 from by decide,
    if_pos (by decide), if_pos (by decide), if_neg (by decide)]
  rw [blw_loop, dif_neg (by decide), if_pos (by decide), if_pos (by decide)]
  decide

/-! ## Claims -/

/-- C1 (counterexample): the buffer `"e" + U+0301` is non-empty and forms a
single grapheme cluster (base plus trailing combining mark), yet a Backspace
keystroke (DEL, byte 127) leaves the base `"e"` behind: only the trailing
combining mark is removed, not the entire cluster as the claim states. -/
theorem C1_counterexample :
    ([101, 204, 129] : ByteStr) ≠ [] ∧
    find_grapheme_cluster_end [101, 204, 129] 0 = 3 ∧
    process_keystroke [120] [[120]] [101, 204, 129] 127 = .cont [101] := by
  refine ⟨by decide, cluster_end_e_acute, ?_⟩
  unfold process_keystroke
  rw [if_neg (by decide), if_pos (Or.inl rfl), if_neg (by decide)]
  rw [show List.length [101, 204, 129] = 3 from rfl, prev_char_pos_e_acute]
  decide

/-- C1 (amended): for every non-empty user input buffer, a Backspace
keystroke (DEL, and likewise BS) removes exactly the last UTF-8 codepoint,
not the last full grapheme cluster: the buffer is truncated at
`prev_char_pos`, which is a strictly smaller position preceding only
continuation bytes and itself starting a codepoint (or 0) — so a buffer
ending in base + combining marks loses only its final combining mark. -/
theorem C1_backspace_removes_last_codepoint (target : ByteStr)
    (target_lines : List ByteStr) (input : ByteStr) (h : input ≠ []) :
    process_keystroke target target_lines input 127 =
      .cont (input.take (prev_char_pos input input.length)) ∧
    prev_char_pos input input.length < input.length ∧
    (∀ q, prev_char_pos input input.length < q → q < input.length →
      is_utf8_continuation (byteAt input q) = true) ∧
    (prev_char_pos input input.length = 0 ∨
      is_utf8_continuation (byteAt input (prev_char_pos input input.length)) = false) := by
  have hlen : 0 < input.length := List.length_pos.mpr h
  have hpcp : prev_char_pos input input.length = pcp_loop input (input.length - 1) := by
    rw [prev_char_pos, if_neg (by omega)]
  refine ⟨?_, ?_, ?_, ?_⟩
  · unfold process_keystroke
    rw [if_neg (by decide), if_pos (Or.inl rfl),
      if_neg (by simpa [List.isEmpty_iff] using h)]
  · rw [hpcp]
    have := pcp_loop_le input (input.length - 1)
    omega
  · intro q hq1 hq2
    rw [hpcp] at hq1
    exact pcp_loop_cont_above input (input.length - 1) q hq1 (by omega)
  · rw [hpcp]
    exact pcp_loop_stop input (input.length - 1)

theorem C1_witness :
    prev_char_pos [101, 204, 129] 3 < 3 ∧
    is_utf8_continuation (byteAt [101, 204, 129] 2) = true :=
  ⟨(C1_backspace_removes_last_codepoint [120] [[120]] [101, 204, 129] (by decide)).2.1,
   (C1_backspace_removes_last_codepoint [120] [[120]] [101, 204, 129] (by decide)).2.2.1 2
     (by simp [prev_char_pos_e_acute]) (by decide)⟩

/-- C4: for target `"ab cd"` and final input `"ax cd"`, the misspelled-word
set is exactly `{"ab"}` and the accuracy is 80% (4 of the 5 byte positions
agree, the space counting as correct); in general a word of the target is in
the set iff at least one of its byte positions disagrees with — or lies
beyond — the final input (`word_error`), and accuracy is the count of
agreeing byte positions divided by the target length times 100 (which is how
`accuracy` is defined from the source's counting loop). -/
theorem C4_misspelled_words_and_accuracy :
    find_misspelled_words [97, 98, 32, 99, 100] [97, 120, 32, 99, 100] = [[97, 98]] ∧
    accuracy [97, 98, 32, 99, 100] [97, 120, 32, 99, 100] = 80 ∧
    (∀ (t u w : ByteStr), w ∈ find_misspelled_words t u ↔
      ∃ p ∈ word_spans t 0, slice t p.1 p.2 = w ∧ word_error t u p.1 p.2 = true) := by
  refine ⟨?_, ?_, fun t u w => fmw_loop_mem_iff t u 0 w⟩
  · unfold find_misspelled_words
    rw [fmw_loop, dif_pos (by decide), if_pos (by decide)]
    rw [show skip_non_ws [97, 98, 32, 99, 100] (skip_ws [97, 98, 32, 99, 100] 0) = 2
      from by decide]
    rw [fmw_loop, dif_pos (by decide), if_neg (by decide)]
    rw [show skip_non_ws [97, 98, 32, 99, 100] (skip_ws [97, 98, 32, 99, 100] 2) = 5
      from by decide]
    rw [fmw_loop, dif_neg (by decide)]
    decide
  · have h4 : n_correct_chars [97, 98, 32, 99, 100] [97, 120, 32, 99, 100] = 4 := by decide
    unfold accuracy
    rw [h4, show List.length [97, 98, 32, 99, 100] = 5 from rfl]
    norm_num

/-- C3: when the target byte at the current input position is a newline and
the typed byte is whitespace, the keystroke handler appends a newline to the
buffer and then the leading whitespace run (spaces and tabs) of the target
line the cursor has now reached. -/
theorem C3_newline_substitution_auto_indents (target : ByteStr)
    (target_lines : List ByteStr) (input : ByteStr) (c : Nat)
    (h1 : byteAt target input.length = 10) (h2 : isspace_b c = true)
    (h3 : count_newlines (input ++ [10]) < target_lines.length) :
    process_keystroke target target_lines input c =
      .cont ((input ++ [10]) ++
        leading_whitespace (target_lines.getD (count_newlines (input ++ [10])) [])) := by
  have hc : c = 32 ∨ (9 ≤ c ∧ c ≤ 13) := by simpa [isspace_b] using h2
  unfold process_keystroke
  rw [if_neg (by omega), if_neg (by omega), if_neg (by omega), if_pos ⟨h1, h2⟩]
  unfold auto_indent
  rw [if_pos h3]

/-- C3 witness: the spec's scenario — target `"hello\n  world"`, input
`"hello"`, pressing space yields `"hello\n  "`, not `"hello "`. -/
theorem C3_witness :
    process_keystroke [104, 101, 108, 108, 111, 10, 32, 32, 119, 111, 114, 108, 100]
      [[104, 101, 108, 108, 111], [32, 32, 119, 111, 114, 108, 100]]
      [104, 101, 108, 108, 111] 32 =
      .cont [104, 101, 108, 108, 111, 10, 32, 32] := by
  rw [C3_newline_substitution_auto_indents _ _ _ _ (by decide) (by decide) (by decide)]
  decide

/-- C2 (code_bug evaluation): the WPM computation of main.cpp lines 846-848
has no guard or clamp at all: with an elapsed time of zero seconds it divides
by zero for every target length (modelled as `none`; the IEEE `double`
division the C++ performs yields an infinite WPM), contradicting the claim
that the calculation is guarded. -/
theorem C2_wpm_unguarded_at_zero_elapsed :
    compute_wpm 5 0 = none ∧ ∀ target_size : Nat, compute_wpm target_size 0 = none := by
  constructor
  · simp [compute_wpm]
  · intro target_size
    simp [compute_wpm]

/-- C5 (code_bug evaluation): wrapping `"abcd gh"` at width 3 produces
`"abc\ndgh"` — the long word `"abcd"` is broken into chunks `"abc"`, `"d"`,
and the following word `"gh"` is then appended directly after the final chunk
with no separating space or newline.  The word sequence is not preserved: the
original words are `["abcd", "gh"]` but the wrapped text's words are
`["abc", "dgh"]`, so `"gh"` is lost (merged into `"dgh"`), no matter how the
inserted line breaks are undone. -/
theorem C5_wrap_text_merges_adjacent_words :
    wrap_text 4 [97, 98, 99, 100, 32, 103, 104] 3 = [97, 98, 99, 10, 100, 103, 104] ∧
    extract_words [97, 98, 99, 100, 32, 103, 104] = [[97, 98, 99, 100], [103, 104]] ∧
    extract_words [97, 98, 99, 10, 100, 103, 104] = [[97, 98, 99], [100, 103, 104]] := by
  refine ⟨?_, by decide, by decide⟩
  rw [wrap_text, if_neg (by decide)]
  rw [show ([97, 98, 99, 100, 32, 103, 104] : ByteStr).splitOn 10 =
    [[97, 98, 99, 100, 32, 103, 104]] from by decide]
  rw [show ((3 : Int).toNat) = 3 from rfl]
  show wrap_words 4 3 (extract_words [97, 98, 99, 100, 32, 103, 104]) [] = _
  rw [show extract_words [97, 98, 99, 100, 32, 103, 104] =
    [[97, 98, 99, 100], [103, 104]] from by decide]
  simp only [wrap_words]
  rw [break_long_word_abcd]
  decide

/-- C6: for every string and every starting position, the position returned
by `find_grapheme_cluster_end` never starts a combining mark: the function
consumes every trailing combining mark of the cluster, including through its
emoji/ZWJ continuation recursion (positions outside the string are vacuously
not combining-mark starts, per `is_combining_char`'s bounds check). -/
theorem C6_cluster_end_never_inside_combining_sequence (s : ByteStr) (p : Nat) :
    is_combining_char s (find_grapheme_cluster_end s p) = false :=
  find_grapheme_cluster_end_not_combining s p

/-- C7: `draw_state` is a pure function of its inputs — with the same target
lines and user input (and the same normalization function), the bytes it
appends to the output stream are identical no matter what was already in the
stream (hence two successive calls emit byte-identical escape-sequence
output), and the returned total expected input length is the same. -/
theorem C7_draw_state_deterministic (nfdF : ByteStr → ByteStr)
    (target_lines : List ByteStr) (user_input : ByteStr) (out1 out2 : ByteStr) :
    (draw_state nfdF target_lines user_input out1).1.drop out1.length =
      (draw_state nfdF target_lines user_input out2).1.drop out2.length ∧
    (draw_state nfdF target_lines user_input out1).2 =
      (draw_state nfdF target_lines user_input out2).2 := by
  unfold draw_state
  simp [List.drop_left]

/-- C8: with an empty target text, `main` fails with the fatal error
`"No text provided"` strictly before raw terminal mode is entered: the
startup sequence produces no events at all — in particular no
`enterRawMode`. -/
theorem C8_empty_target_fails_before_raw_mode (nfdF : ByteStr → ByteStr)
    (tab_width wrap_width : Nat) (target0 : ByteStr) (h : target0 = []) :
    main_startup nfdF tab_width wrap_width target0 = ([], .fatal "No text provided") ∧
    MainEv.enterRawMode ∉ (main_startup nfdF tab_width wrap_width target0).1 := by
  subst h
  rw [main_startup, if_pos (by decide)]
  simp

theorem C8_witness :
    main_startup id 4 0 [] = ([], .fatal "No text provided") ∧
    MainEv.enterRawMode ∉ (main_startup id 4 0 []).1 :=
  C8_empty_target_fails_before_raw_mode id 4 0 [] rfl

/-- C9: whenever startup reaches an interactive session, the prepared target
text never ends in a whitespace byte, because the full trailing-whitespace
run of the wrapped target (spaces, tabs, newlines — in particular a trailing
newline of stdin text) is stripped, and nothing else is removed. -/
theorem C9_session_target_never_ends_in_whitespace (nfdF : ByteStr → ByteStr)
    (tab_width wrap_width : Nat) (target0 tgt : ByteStr) (lines : List ByteStr)
    (h : (main_startup nfdF tab_width wrap_width target0).2 = .session tgt lines) :
    (∀ b, tgt.getLast? = some b → isspace_b b = false) ∧
    ∃ sfx, wrapped_target nfdF tab_width wrap_width target0 = tgt ++ sfx ∧
      ∀ b ∈ sfx, isspace_b b = true := by
  unfold main_startup at h
  by_cases he : target0.isEmpty
  · rw [if_pos he] at h
    simp at h
  · rw [if_neg he] at h
    simp only at h
    injection h with h1 h2
    subst h1
    exact ⟨(strip_trailing_whitespace_spec _).1, (strip_trailing_whitespace_spec _).2⟩

theorem C9_witness : isspace_b 105 = false :=
  (C9_session_target_never_ends_in_whitespace id 4 0 [104, 105, 10] [104, 105]
    [[104, 105]] (by decide)).1 105 (by decide)

/-- C10: `utf8_char_length` always returns a value between 1 and 4 (invalid
leading bytes map to 1, never 0); consequently `next_char_pos` and
`find_grapheme_cluster_end` strictly advance from every in-range position, so
every character-scanning loop over a string strictly advances and
terminates. -/
theorem C10_char_scanning_strictly_advances :
    (∀ b, 1 ≤ utf8_char_length b ∧ utf8_char_length b ≤ 4) ∧
    (∀ (s : ByteStr) (p : Nat), p < s.length → p < next_char_pos s p) ∧
    (∀ (s : ByteStr) (p : Nat), p < s.length → p < find_grapheme_cluster_end s p) := by
  refine ⟨fun b => ⟨utf8_char_length_ge_one b, utf8_char_length_le_four b⟩, ?_, ?_⟩
  · intro s p h
    unfold next_char_pos
    rw [if_neg (by omega)]
    have := utf8_char_length_ge_one (byteAt s p)
    omega
  · intro s p h
    exact lt_find_grapheme_cluster_end s p h

theorem C10_witness :
    (1 ≤ utf8_char_length 255 ∧ utf8_char_length 255 ≤ 4) ∧
    0 < next_char_pos [97, 98] 0 ∧ 0 < find_grapheme_cluster_end [101, 204, 129] 0 :=
  ⟨C10_char_scanning_strictly_advances.1 255,
   C10_char_scanning_strictly_advances.2.1 [97, 98] 0 (by decide),
   C10_char_scanning_strictly_advances.2.2 [101, 204, 129] 0 (by decide)⟩

end Ttt
